import Mathlib

/-!
# check-audit: the audit-event consumer of `kafka-tools/check-audit/main.go`

A shallow embedding of the program: the `Action` tally, `addResult`, `readMessage`,
and the `for { select { ... } }` loop of `main` together with its start-up code.

* Go's `int` is taken on a 64-bit target: a value in `[-2^63, 2^63)`, `++` wraps.
* A `map[string]Action` is a finite map with unique, unordered keys (`Finmap`).
* The collaborators that are not part of the repository (`audit.EventSchema.Unmarshal`,
  `kafka.NewSyncConsumer`, the arrival order of messages and signals) are parameters.
-/

namespace CheckAudit

/-! ## Data model -/

/-- Go `int` on a 64-bit target. -/
abbrev GoInt : Type :=
  { x : Int // -9223372036854775808 ≤ x ∧ x < 9223372036854775808 }

/-- Reduce an integer to the two's-complement range of a 64-bit `int`. -/
def wrapInt (x : Int) : Int :=
  (x + 9223372036854775808) % 18446744073709551616 - 9223372036854775808

/-- The literal `0` of type `int`. -/
def GoInt.zero : GoInt := ⟨0, by decide⟩

/-- The statement `x++` on an `int`. -/
def GoInt.inc (x : GoInt) : GoInt := ⟨wrapInt (x.val + 1), by unfold wrapInt; omega⟩

/-- AuditEvent represents the structure of the audit message received. -/
structure AuditEvent where
  Created : String
  Service : String
  RequestID : String
  User : String
  AttemptedAction : String
  ActionResult : String
  Params : Finmap (fun _ : String => String)

/-- Action represents stats of the consumed actions. -/
structure Action where
  Attempted : GoInt
  Successful : GoInt
  Unsuccessful : GoInt
  Total : GoInt
deriving DecidableEq, Repr

def attempted : String := "attempted"

def successful : String := "successful"

def unsuccessful : String := "unsuccessful"

/-- The value of type `map[string]Action`. -/
abbrev Table : Type := Finmap (fun _ : String => Action)

/-- The zero value of `Action`, also written out as the literal of lines 98-103. -/
def Action.zero : Action :=
  { Attempted := GoInt.zero, Successful := GoInt.zero, Unsuccessful := GoInt.zero,
    Total := GoInt.zero }

/-- The comma-ok index expression `action, ok := actions[key]`:
an absent key yields the zero value and `false`. -/
def index (actions : Table) (key : String) : Action × Bool :=
  match actions.lookup key with
  | some action => (action, true)
  | none => (Action.zero, false)

/-- The plain index expression `actions[key]`. -/
def entry (actions : Table) (key : String) : Action := (index actions key).1

/-! ## `addResult` (lines 95-117) -/

/-- The `switch event.ActionResult` of lines 106-113. -/
def classify (action : Action) (result : String) : Action :=
  if result = successful then { action with Successful := action.Successful.inc }
  else if result = unsuccessful then { action with Unsuccessful := action.Unsuccessful.inc }
  else if result = attempted then { action with Attempted := action.Attempted.inc }
  else action

/-- The function `addResult`; the map is mutated in place in the source and is
returned here. -/
def addResult (actions : Table) (event : AuditEvent) : Table :=
  let (action, ok) := index actions event.AttemptedAction
  let actions :=
    if !ok then
      actions.insert event.AttemptedAction
        { Attempted := GoInt.zero, Successful := GoInt.zero, Unsuccessful := GoInt.zero,
          Total := GoInt.zero }
    else actions
  let action := classify action event.ActionResult
  let action := { action with Total := action.Total.inc }
  actions.insert event.AttemptedAction action

/-- The variant of `addResult` without the lazy insert of lines 97-104: look the label
up with the all-zero `Action` as default, classify the result label, add 1 to `Total`,
store the entry once. -/
def addResultNoLazyInsert (actions : Table) (event : AuditEvent) : Table :=
  let action := (actions.lookup event.AttemptedAction).getD Action.zero
  let action := classify action event.ActionResult
  actions.insert event.AttemptedAction { action with Total := action.Total.inc }

/-- A sequence of events handed to `addResult` one after another. -/
def addResults (actions : Table) (events : List AuditEvent) : Table :=
  events.foldl addResult actions

/-- Whether a result label is one of the three constants of lines 35-39. -/
def recognised (result : String) : Bool :=
  result = successful || result = unsuccessful || result = attempted

/-! ## `readMessage` and the loop of `main` -/

/-- The payload type `[]byte`. -/
abbrev Bytes : Type := List UInt8

/-- The decoder `audit.EventSchema.Unmarshal`, a collaborator from another repository. -/
abbrev Unmarshal : Type := Bytes → Except String AuditEvent

/-- The function `readMessage` (lines 85-93). -/
def readMessage (unmarshal : Unmarshal) (eventValue : Bytes) : Except String AuditEvent :=
  match unmarshal eventValue with
  | .error err => .error err
  | .ok e => .ok e

/-- A delivery of the consumer group: its position in the log and its payload. -/
structure Message where
  offset : Nat
  data : Bytes
deriving DecidableEq, Repr

def Message.GetData (message : Message) : Bytes := message.data

/-- The lines written to the log sink. -/
inductive LogLine where
  | missingBrokers (kafkaBrokers : String)
  | couldNotObtainConsumer (err : String) (kafkaBrokerList : List String)
  | failedToUnmarshal (err : String)
  | receivedMessage (event : AuditEvent)
  | auditStats (actions : Table)

/-- What the `select` of line 65 takes next. -/
inductive Ready where
  | incoming (message : Message)
  | signal
deriving DecidableEq, Repr

/-- The state of the process while in, or after, the loop of lines 64-82.
`exited = none` is Running; `exited = some status` is ShuttingDown. -/
structure Process where
  actions : Table
  committed : List Message
  log : List LogLine
  exited : Option Int

/-- The state at line 63: `actions := make(map[string]Action)`. -/
def Process.init (log : List LogLine) : Process :=
  { actions := ∅, committed := [], log := log, exited := none }

/-- One pass through the body of the `for` loop (lines 65-81) for the case taken. -/
def iteration (unmarshal : Unmarshal) (p : Process) : Ready → Process
  | .incoming message =>
    match readMessage unmarshal message.GetData with
    | .error err =>
      -- `break` leaves the `select`; the `for` loop goes on
      { p with log := p.log ++ [LogLine.failedToUnmarshal err] }
    | .ok event =>
      let p := { p with log := p.log ++ [LogLine.receivedMessage event] }
      let p := { p with actions := addResult p.actions event }
      { p with committed := p.committed ++ [message] }
  | .signal =>
    let p := { p with log := p.log ++ [LogLine.auditStats p.actions] }
    { p with exited := some 0 }

/-- The step function of the loop: a process that has called `os.Exit` takes no step. -/
def step? (unmarshal : Unmarshal) (p : Process) (r : Ready) : Option Process :=
  match p.exited with
  | some _ => none
  | none => some (iteration unmarshal p r)

/-- The loop over a schedule of arrivals; it ends at `os.Exit`. -/
def run (unmarshal : Unmarshal) : Process → List Ready → Process
  | p, [] => p
  | p, r :: rs =>
    match step? unmarshal p r with
    | none => p
    | some q => run unmarshal q rs

/-! ## Start-up of `main` (lines 43-63) -/

/-- The call `strings.Split(s, sep)` for a one-character separator, on the characters. -/
def splitChars (sep : Char) : List Char → List (List Char)
  | [] => [[]]
  | c :: cs =>
    if c = sep then [] :: splitChars sep cs
    else
      match splitChars sep cs with
      | [] => [[c]]
      | piece :: pieces => (c :: piece) :: pieces

def stringsSplit (s : String) (sep : Char) : List String :=
  (splitChars sep s.data).map String.mk

/-- The arguments of a call to `kafka.NewSyncConsumer`. -/
structure ConsumerRequest where
  brokers : List String
  topic : String
  group : String
  offsetOldest : Bool
deriving DecidableEq, Repr

/-- The constructor `kafka.NewSyncConsumer`, a collaborator from another repository:
only whether it fails matters here. -/
abbrev NewSyncConsumer : Type := ConsumerRequest → Except String Unit

/-- A finished or cut-off execution of `main`. -/
structure Execution where
  log : List LogLine
  consumerRequests : List ConsumerRequest
  loop : Option Process
  exitStatus : Option Int

/-- The function `main` for a value of the flag, a consumer constructor, a decoder and
a schedule of arrivals. -/
def main (kafkaBrokers : String) (newSyncConsumer : NewSyncConsumer)
    (unmarshal : Unmarshal) (schedule : List Ready) : Execution :=
  if kafkaBrokers = "" then
    { log := [LogLine.missingBrokers kafkaBrokers], consumerRequests := [], loop := none,
      exitStatus := none }
  else
    let kafkaBrokerList := stringsSplit kafkaBrokers ','
    let request : ConsumerRequest :=
      { brokers := kafkaBrokerList, topic := "audit-events", group := "check-audit",
        offsetOldest := true }
    match newSyncConsumer request with
    | .error err =>
      { log := [LogLine.couldNotObtainConsumer err kafkaBrokerList],
        consumerRequests := [request], loop := none, exitStatus := some 1 }
    | .ok _ =>
      let p := run unmarshal (Process.init []) schedule
      { log := p.log, consumerRequests := [request], loop := some p, exitStatus := p.exited }

/-- The entry stored by `addResult` for an event whose label had the entry `action`. -/
def bump (action : Action) (result : String) : Action :=
  { classify action result with Total := (classify action result).Total.inc }

/-- The number of events of a sequence that satisfy a test. -/
def countEvents (test : AuditEvent → Bool) (events : List AuditEvent) : Nat :=
  events.countP test

/-- The test: the event has action label `label`. -/
def hasLabel (label : String) (event : AuditEvent) : Bool :=
  event.AttemptedAction = label

/-- The test: the event has action label `label` and result label `result`. -/
def hasLabelResult (label result : String) (event : AuditEvent) : Bool :=
  event.AttemptedAction = label && event.ActionResult = result

/-- The test: the event has action label `label` and one of the three result labels. -/
def hasLabelRecognised (label : String) (event : AuditEvent) : Bool :=
  event.AttemptedAction = label && recognised event.ActionResult

/-! ## Concrete inputs -/

/-- An event with the given action and result labels, the other fields empty. -/
def mkEvent (action result : String) : AuditEvent :=
  { Created := "", Service := "", RequestID := "", User := "", AttemptedAction := action,
    ActionResult := result, Params := ∅ }

/-- A small `int`. -/
def GoInt.ofSmall (n : Fin 1000) : GoInt := ⟨(n.val : Int), by omega⟩

/-- A tally with four small counters. -/
def mkAction (att suc uns tot : Fin 1000) : Action :=
  { Attempted := GoInt.ofSmall att, Successful := GoInt.ofSmall suc,
    Unsuccessful := GoInt.ofSmall uns, Total := GoInt.ofSmall tot }

/-- The largest `int`, `math.MaxInt64`. -/
def GoInt.max : GoInt := ⟨9223372036854775807, by decide⟩

/-- A table whose only entry, for "login", has `Total` at the largest `int`. -/
def fullTable : Table :=
  (∅ : Table).insert "login"
    { Attempted := GoInt.zero, Successful := GoInt.zero, Unsuccessful := GoInt.zero,
      Total := GoInt.max }

/-- As many "login" events with result "successful" as there are non-negative `int`s
and one more: `2^63` of them. -/
def manyLogins : List AuditEvent :=
  List.replicate 9223372036854775808 (mkEvent "login" "successful")

/-- The scenario of the specification: four "login" events. -/
def loginScenario : List AuditEvent :=
  [mkEvent "login" "successful", mkEvent "login" "successful",
   mkEvent "login" "unsuccessful", mkEvent "login" "attempted"]

/-! ## Observations on a schedule -/

/-- The messages the `select` takes before the first signal, in arrival order. -/
def received : List Ready → List Message
  | [] => []
  | .incoming message :: rs => message :: received rs
  | .signal :: _ => []

/-- Whether `readMessage` returns without an error on the payload of a message. -/
def decodes (unmarshal : Unmarshal) (message : Message) : Bool :=
  match readMessage unmarshal message.GetData with
  | .error _ => false
  | .ok _ => true

/-- The events of the messages on which `readMessage` returns without an error. -/
def decoded (unmarshal : Unmarshal) (messages : List Message) : List AuditEvent :=
  messages.filterMap fun message =>
    match readMessage unmarshal message.GetData with
    | .error _ => none
    | .ok event => some event

/-- The log line of lines 69 or 73 for each message. -/
def messageLog (unmarshal : Unmarshal) (messages : List Message) : List LogLine :=
  messages.map fun message =>
    match readMessage unmarshal message.GetData with
    | .error err => LogLine.failedToUnmarshal err
    | .ok event => LogLine.receivedMessage event

/-! ## Concrete inputs for the loop -/

/-- A decoder for the examples: the payload `[1]` is a "login" event with result
"successful", `[2]` is a "logout" event with result "attempted", anything else fails. -/
def sampleUnmarshal : Unmarshal
  | [1] => .ok (mkEvent "login" "successful")
  | [2] => .ok (mkEvent "logout" "attempted")
  | _ => .error "unexpected end of input"

/-- Three deliveries: a "login" event, a payload that does not decode, a "login" event. -/
def sampleMessages : List Message :=
  [{ offset := 0, data := [1] }, { offset := 1, data := [] }, { offset := 2, data := [1] }]

/-- The scenario of the specification for shutdown: four "login" events and one "logout"
event have been counted when the signal arrives; a further message follows the signal. -/
def shutdownSchedule : List Ready :=
  [.incoming { offset := 0, data := [1] }, .incoming { offset := 1, data := [1] },
   .incoming { offset := 2, data := [2] }, .incoming { offset := 3, data := [1] },
   .incoming { offset := 4, data := [1] }, .signal, .incoming { offset := 5, data := [1] }]

/-- The pieces after the first one, each behind its separator, in one string. -/
def glue (sep : Char) : List (List Char) → List Char
  | [] => []
  | piece :: pieces => sep :: piece ++ glue sep pieces

/-! ## Basic facts about `addResult` -/

theorem wrapInt_range (x : Int) :
    -9223372036854775808 ≤ wrapInt x ∧ wrapInt x < 9223372036854775808 := by
  unfold wrapInt
  omega

theorem wrapInt_of_range (x : Int) (h₁ : -9223372036854775808 ≤ x)
    (h₂ : x < 9223372036854775808) : wrapInt x = x := by
  unfold wrapInt
  omega

theorem wrapInt_succ (x : Int) : wrapInt (wrapInt x + 1) = wrapInt (x + 1) := by
  unfold wrapInt
  omega

theorem inc_val (x : GoInt) : x.inc.val = wrapInt (x.val + 1) := rfl

theorem inc_val_of_lt (x : GoInt) (h : x.val < 9223372036854775807) :
    x.inc.val = x.val + 1 := by
  rw [inc_val]
  exact wrapInt_of_range _ (by have := x.property.1; omega) (by omega)

theorem entry_eq (t : Table) (k : String) : entry t k = (t.lookup k).getD Action.zero := by
  unfold entry index
  cases t.lookup k <;> rfl

theorem lookup_addResult_self (t : Table) (e : AuditEvent) :
    (addResult t e).lookup e.AttemptedAction
      = some (bump (entry t e.AttemptedAction) e.ActionResult) := by
  unfold addResult entry index bump
  cases t.lookup e.AttemptedAction <;> simp

theorem lookup_addResult_of_ne (t : Table) (e : AuditEvent) (k : String)
    (h : k ≠ e.AttemptedAction) : (addResult t e).lookup k = t.lookup k := by
  unfold addResult index
  cases t.lookup e.AttemptedAction <;> simp [Finmap.lookup_insert_of_ne _ h]

theorem entry_addResult_self (t : Table) (e : AuditEvent) :
    entry (addResult t e) e.AttemptedAction
      = bump (entry t e.AttemptedAction) e.ActionResult := by
  rw [entry_eq, lookup_addResult_self]
  rfl

theorem entry_addResult_of_ne (t : Table) (e : AuditEvent) (k : String)
    (h : k ≠ e.AttemptedAction) : entry (addResult t e) k = entry t k := by
  rw [entry_eq, entry_eq, lookup_addResult_of_ne t e k h]

theorem bump_Total (a : Action) (r : String) : (bump a r).Total = a.Total.inc := by
  unfold bump classify
  split_ifs <;> rfl

theorem bump_Successful (a : Action) (r : String) :
    (bump a r).Successful = if r = successful then a.Successful.inc else a.Successful := by
  unfold bump classify
  split_ifs <;> rfl

theorem bump_Unsuccessful (a : Action) (r : String) :
    (bump a r).Unsuccessful
      = if r = unsuccessful then a.Unsuccessful.inc else a.Unsuccessful := by
  have hsu : successful ≠ unsuccessful := by decide
  unfold bump classify
  split_ifs <;> first | rfl | (exfalso; simp_all)

theorem bump_Attempted (a : Action) (r : String) :
    (bump a r).Attempted = if r = attempted then a.Attempted.inc else a.Attempted := by
  have hsa : successful ≠ attempted := by decide
  have hua : unsuccessful ≠ attempted := by decide
  unfold bump classify
  split_ifs <;> first | rfl | (exfalso; simp_all)

theorem mem_addResult_self (t : Table) (e : AuditEvent) :
    e.AttemptedAction ∈ addResult t e := by
  rw [Finmap.mem_iff]
  exact ⟨_, lookup_addResult_self t e⟩

/-! ## The entry written by `addResult` (C2) -/

/-- C2, as stated, fails: with `Total` at the largest `int`, `addResult` does not increase
`Total` by one; the `++` of line 115 wraps it to the smallest `int`. -/
theorem addResult_total_wraps :
    (entry (addResult fullTable (mkEvent "login" "other")) "login").Total.val
        = -9223372036854775808
      ∧ (entry (addResult fullTable (mkEvent "login" "other")) "login").Total.val
        ≠ (entry fullTable "login").Total.val + 1 := by
  decide

/-- C2, amended: after `addResult` the label of the event is present, and its entry is the
previous entry (the all-zero `Action` when the label was absent) with `Total` incremented as
an `int` and with the one counter selected by the result label incremented as an `int`, the
other two unchanged; for any other result label none of the three changes. An `int`
increment adds exactly 1 whenever the counter is below `2^63 - 1`. -/
theorem addResult_entry (t : Table) (e : AuditEvent) :
    (addResult t e).lookup e.AttemptedAction = some (entry (addResult t e) e.AttemptedAction)
    ∧ (entry (addResult t e) e.AttemptedAction).Total = (entry t e.AttemptedAction).Total.inc
    ∧ ((entry t e.AttemptedAction).Total.val < 9223372036854775807 →
        (entry (addResult t e) e.AttemptedAction).Total.val
          = (entry t e.AttemptedAction).Total.val + 1)
    ∧ (e.ActionResult = successful →
        (entry (addResult t e) e.AttemptedAction).Successful
            = (entry t e.AttemptedAction).Successful.inc
          ∧ ((entry t e.AttemptedAction).Successful.val < 9223372036854775807 →
              (entry (addResult t e) e.AttemptedAction).Successful.val
                = (entry t e.AttemptedAction).Successful.val + 1)
          ∧ (entry (addResult t e) e.AttemptedAction).Unsuccessful
            = (entry t e.AttemptedAction).Unsuccessful
          ∧ (entry (addResult t e) e.AttemptedAction).Attempted
            = (entry t e.AttemptedAction).Attempted)
    ∧ (e.ActionResult = unsuccessful →
        (entry (addResult t e) e.AttemptedAction).Unsuccessful
            = (entry t e.AttemptedAction).Unsuccessful.inc
          ∧ ((entry t e.AttemptedAction).Unsuccessful.val < 9223372036854775807 →
              (entry (addResult t e) e.AttemptedAction).Unsuccessful.val
                = (entry t e.AttemptedAction).Unsuccessful.val + 1)
          ∧ (entry (addResult t e) e.AttemptedAction).Successful
            = (entry t e.AttemptedAction).Successful
          ∧ (entry (addResult t e) e.AttemptedAction).Attempted
            = (entry t e.AttemptedAction).Attempted)
    ∧ (e.ActionResult = attempted →
        (entry (addResult t e) e.AttemptedAction).Attempted
            = (entry t e.AttemptedAction).Attempted.inc
          ∧ ((entry t e.AttemptedAction).Attempted.val < 9223372036854775807 →
              (entry (addResult t e) e.AttemptedAction).Attempted.val
                = (entry t e.AttemptedAction).Attempted.val + 1)
          ∧ (entry (addResult t e) e.AttemptedAction).Successful
            = (entry t e.AttemptedAction).Successful
          ∧ (entry (addResult t e) e.AttemptedAction).Unsuccessful
            = (entry t e.AttemptedAction).Unsuccessful)
    ∧ (e.ActionResult ≠ successful → e.ActionResult ≠ unsuccessful →
        e.ActionResult ≠ attempted →
        (entry (addResult t e) e.AttemptedAction).Successful
            = (entry t e.AttemptedAction).Successful
          ∧ (entry (addResult t e) e.AttemptedAction).Unsuccessful
            = (entry t e.AttemptedAction).Unsuccessful
          ∧ (entry (addResult t e) e.AttemptedAction).Attempted
            = (entry t e.AttemptedAction).Attempted) := by
  have hsu : successful ≠ unsuccessful := by decide
  have hsa : successful ≠ attempted := by decide
  have hua : unsuccessful ≠ attempted := by decide
  rw [entry_addResult_self, bump_Total, bump_Successful, bump_Unsuccessful, bump_Attempted]
  refine ⟨lookup_addResult_self t e, rfl, fun h => inc_val_of_lt _ h, ?_, ?_, ?_, ?_⟩
  · intro hr
    rw [if_pos hr, if_neg (hr ▸ hsu), if_neg (hr ▸ hsa)]
    exact ⟨rfl, fun h => inc_val_of_lt _ h, rfl, rfl⟩
  · intro hr
    rw [if_pos hr, if_neg (hr ▸ hsu.symm), if_neg (hr ▸ hua)]
    exact ⟨rfl, fun h => inc_val_of_lt _ h, rfl, rfl⟩
  · intro hr
    rw [if_pos hr, if_neg (hr ▸ hsa.symm), if_neg (hr ▸ hua.symm)]
    exact ⟨rfl, fun h => inc_val_of_lt _ h, rfl, rfl⟩
  · intro h₁ h₂ h₃
    rw [if_neg h₁, if_neg h₂, if_neg h₃]
    exact ⟨rfl, rfl, rfl⟩

/-- C2, at a concrete input: a first "login" event with result "successful" on the empty
table gives `Total = 1` and `Successful = 1`. -/
theorem addResult_entry_witness :
    (entry (addResult ∅ (mkEvent "login" "successful")) "login").Total.val
        = (entry ∅ "login").Total.val + 1
      ∧ (entry (addResult ∅ (mkEvent "login" "successful")) "login").Successful.val
        = (entry ∅ "login").Successful.val + 1 :=
  ⟨(addResult_entry ∅ (mkEvent "login" "successful")).2.2.1 (by decide),
   ((addResult_entry ∅ (mkEvent "login" "successful")).2.2.2.1 (by decide)).2.1 (by decide)⟩

/-! ## Other labels are left alone (C5, C6) and the lazy insert (C10) -/

/-- C5: `addResult` leaves the lookup result of every label other than the label of the
event as it was, the label of the event is present afterwards, and every label present
before is present afterwards. -/
theorem addResult_frame (t : Table) (e : AuditEvent) :
    (∀ B : String, B ≠ e.AttemptedAction → (addResult t e).lookup B = t.lookup B)
    ∧ e.AttemptedAction ∈ addResult t e
    ∧ (∀ k : String, k ∈ t → k ∈ addResult t e) := by
  refine ⟨fun B hB => lookup_addResult_of_ne t e B hB, mem_addResult_self t e,
    fun k hk => ?_⟩
  · by_cases h : k = e.AttemptedAction
    · rw [h]
      exact mem_addResult_self t e
    · rw [Finmap.mem_iff] at hk ⊢
      rw [lookup_addResult_of_ne t e k h]
      exact hk

/-- C5, at a concrete input: a "logout" event leaves the entry for "login" as it was. -/
theorem addResult_frame_witness :
    (addResult fullTable (mkEvent "logout" "successful")).lookup "login"
      = fullTable.lookup "login" :=
  (addResult_frame fullTable (mkEvent "logout" "successful")).1 "login" (by decide)

/-- C6: for two events with different action labels, `addResult` for the first and then
the second gives the same table, and so the same entries for both labels, as `addResult`
for the second and then the first. -/
theorem addResult_comm (t : Table) (e₁ e₂ : AuditEvent)
    (h : e₁.AttemptedAction ≠ e₂.AttemptedAction) :
    addResult (addResult t e₁) e₂ = addResult (addResult t e₂) e₁
    ∧ entry (addResult (addResult t e₁) e₂) e₁.AttemptedAction
        = entry (addResult (addResult t e₂) e₁) e₁.AttemptedAction
    ∧ entry (addResult (addResult t e₁) e₂) e₂.AttemptedAction
        = entry (addResult (addResult t e₂) e₁) e₂.AttemptedAction := by
  have key : addResult (addResult t e₁) e₂ = addResult (addResult t e₂) e₁ := by
    apply Finmap.ext_lookup
    intro k
    by_cases h₁ : k = e₁.AttemptedAction
    · subst h₁
      rw [lookup_addResult_of_ne _ e₂ _ h, lookup_addResult_self, lookup_addResult_self,
        entry_addResult_of_ne _ e₂ _ h]
    · by_cases h₂ : k = e₂.AttemptedAction
      · subst h₂
        rw [lookup_addResult_self, lookup_addResult_of_ne _ e₁ _ h₁, lookup_addResult_self,
          entry_addResult_of_ne _ e₁ _ h₁]
      · rw [lookup_addResult_of_ne _ e₂ _ h₂, lookup_addResult_of_ne _ e₁ _ h₁,
          lookup_addResult_of_ne _ e₁ _ h₁, lookup_addResult_of_ne _ e₂ _ h₂]
  exact ⟨key, by rw [key], by rw [key]⟩

/-- C6, at a concrete input: a "login" and a "logout" event in either order. -/
theorem addResult_comm_witness :
    addResult (addResult ∅ (mkEvent "login" "successful")) (mkEvent "logout" "attempted")
      = addResult (addResult ∅ (mkEvent "logout" "attempted")) (mkEvent "login" "successful") :=
  (addResult_comm ∅ (mkEvent "login" "successful") (mkEvent "logout" "attempted")
    (by decide)).1

/-- C10: `addResult` gives the same table as the variant without the lazy insert of
lines 97-104, for every table and event. -/
theorem addResult_eq_noLazyInsert (t : Table) (e : AuditEvent) :
    addResult t e = addResultNoLazyInsert t e := by
  unfold addResult addResultNoLazyInsert index
  cases t.lookup e.AttemptedAction with
  | none => simp [Finmap.insert_insert, Action.zero]
  | some a => simp

/-! ## Sequences of events (C1, C8) -/

theorem addResults_concat (t : Table) (es : List AuditEvent) (e : AuditEvent) :
    addResults t (es ++ [e]) = addResult (addResults t es) e := by
  simp [addResults, List.foldl_append]

theorem countEvents_concat (test : AuditEvent → Bool) (es : List AuditEvent)
    (e : AuditEvent) :
    countEvents test (es ++ [e]) = countEvents test es + (if test e then 1 else 0) := by
  simp [countEvents, List.countP_append, List.countP_cons, List.countP_nil]

theorem countEvents_le_length (test : AuditEvent → Bool) (es : List AuditEvent) :
    countEvents test es ≤ es.length := List.countP_le_length _

/-- The three recognised result labels split the recognised events of a label. -/
theorem countEvents_recognised (A : String) (es : List AuditEvent) :
    countEvents (hasLabelRecognised A) es
      = countEvents (hasLabelResult A successful) es
        + countEvents (hasLabelResult A unsuccessful) es
        + countEvents (hasLabelResult A attempted) es := by
  have hsu : successful ≠ unsuccessful := by decide
  have hsa : successful ≠ attempted := by decide
  have hua : unsuccessful ≠ attempted := by decide
  induction es using List.reverseRecOn with
  | nil => rfl
  | append_singleton es e ih =>
    simp only [countEvents_concat, ih]
    by_cases hA : e.AttemptedAction = A
    · by_cases h₁ : e.ActionResult = successful
      · simp [hasLabelRecognised, hasLabelResult, recognised, hA, h₁, hsu, hsa]
        omega
      · by_cases h₂ : e.ActionResult = unsuccessful
        · simp [hasLabelRecognised, hasLabelResult, recognised, hA, h₂, hsu.symm, hua]
          omega
        · by_cases h₃ : e.ActionResult = attempted
          · simp [hasLabelRecognised, hasLabelResult, recognised, hA, h₃, hsa.symm,
              hua.symm]
            omega
          · simp [hasLabelRecognised, hasLabelResult, recognised, hA, h₁, h₂, h₃]
    · simp [hasLabelRecognised, hasLabelResult, hA]

theorem countEvents_recognised_le (A : String) (es : List AuditEvent) :
    countEvents (hasLabelRecognised A) es ≤ countEvents (hasLabel A) es := by
  unfold countEvents
  apply List.countP_mono_left
  intro e _ h
  simp only [hasLabelRecognised, hasLabel, Bool.and_eq_true, decide_eq_true_eq] at h ⊢
  exact h.1

/-- Each counter of an entry after a sequence of events from the empty table is the
matching number of events, reduced to the range of an `int`. -/
theorem entry_addResults (A : String) (es : List AuditEvent) :
    (entry (addResults ∅ es) A).Total.val = wrapInt (countEvents (hasLabel A) es)
    ∧ (entry (addResults ∅ es) A).Successful.val
        = wrapInt (countEvents (hasLabelResult A successful) es)
    ∧ (entry (addResults ∅ es) A).Unsuccessful.val
        = wrapInt (countEvents (hasLabelResult A unsuccessful) es)
    ∧ (entry (addResults ∅ es) A).Attempted.val
        = wrapInt (countEvents (hasLabelResult A attempted) es) := by
  induction es using List.reverseRecOn with
  | nil =>
    have h0 : entry (addResults ∅ []) A = Action.zero := by
      simp [addResults, entry, index]
    rw [h0]
    simp only [countEvents, List.countP_nil]
    decide
  | append_singleton es e ih =>
    obtain ⟨ihT, ihS, ihU, ihA⟩ := ih
    simp only [addResults_concat, countEvents_concat]
    by_cases hA : e.AttemptedAction = A
    · subst hA
      rw [entry_addResult_self, bump_Total, bump_Successful, bump_Unsuccessful,
        bump_Attempted]
      refine ⟨?_, ?_, ?_, ?_⟩
      · rw [inc_val, ihT, wrapInt_succ]
        simp [hasLabel]
      · by_cases hr : e.ActionResult = successful
        · rw [if_pos hr, inc_val, ihS, wrapInt_succ]
          simp [hasLabelResult, hr]
        · rw [if_neg hr, ihS]
          simp [hasLabelResult, hr]
      · by_cases hr : e.ActionResult = unsuccessful
        · rw [if_pos hr, inc_val, ihU, wrapInt_succ]
          simp [hasLabelResult, hr]
        · rw [if_neg hr, ihU]
          simp [hasLabelResult, hr]
      · by_cases hr : e.ActionResult = attempted
        · rw [if_pos hr, inc_val, ihA, wrapInt_succ]
          simp [hasLabelResult, hr]
        · rw [if_neg hr, ihA]
          simp [hasLabelResult, hr]
    · have hne : A ≠ e.AttemptedAction := fun h => hA h.symm
      rw [entry_addResult_of_ne _ e A hne]
      simp [hasLabel, hasLabelResult, hA, ihT, ihS, ihU, ihA]

/-- A label is present after a sequence of events from the empty table exactly when one
of the events carries it. -/
theorem mem_addResults (A : String) (es : List AuditEvent) :
    A ∈ addResults ∅ es ↔ 0 < countEvents (hasLabel A) es := by
  induction es using List.reverseRecOn with
  | nil => simp [addResults, countEvents, Finmap.not_mem_empty]
  | append_singleton es e ih =>
    rw [addResults_concat, countEvents_concat]
    by_cases hA : e.AttemptedAction = A
    · subst hA
      have := mem_addResult_self (addResults ∅ es) e
      simp [hasLabel, this]
    · have hne : A ≠ e.AttemptedAction := fun h => hA h.symm
      have hmem : A ∈ addResult (addResults ∅ es) e ↔ A ∈ addResults ∅ es := by
        simp only [Finmap.mem_iff, lookup_addResult_of_ne _ e A hne]
      rw [hmem, ih]
      simp [hasLabel, hA]

/-- C1, as stated, fails: after `2^63` "login" events the `Total` of "login" is the
smallest `int`, not the number of events. -/
theorem addResults_total_wraps :
    countEvents (hasLabel "login") manyLogins = 9223372036854775808
      ∧ (entry (addResults ∅ manyLogins) "login").Total.val = -9223372036854775808
      ∧ (entry (addResults ∅ manyLogins) "login").Total.val
        ≠ (countEvents (hasLabel "login") manyLogins : Int) := by
  have hc : countEvents (hasLabel "login") manyLogins = 9223372036854775808 := by
    unfold countEvents manyLogins
    rw [List.countP_replicate]
    have : hasLabel "login" (mkEvent "login" "successful") = true := by decide
    rw [if_pos this]
  have ht := (entry_addResults "login" manyLogins).1
  rw [hc] at ht
  have hw : wrapInt ((9223372036854775808 : Nat) : Int) = -9223372036854775808 := by decide
  rw [hw] at ht
  refine ⟨hc, ht, ?_⟩
  rw [ht, hc]
  decide

/-- C1, amended: from the empty table, for a sequence in which fewer than `2^63` events
carry the label `A`, the entry for `A` has `Total` equal to the number of events with label
`A`, and `Successful + Unsuccessful + Attempted` equal to the number of those events whose
result label is one of the three recognised ones, which is at most `Total`. -/
theorem addResults_counts (A : String) (es : List AuditEvent)
    (h : countEvents (hasLabel A) es < 9223372036854775808) :
    (entry (addResults ∅ es) A).Total.val = countEvents (hasLabel A) es
    ∧ (entry (addResults ∅ es) A).Successful.val + (entry (addResults ∅ es) A).Unsuccessful.val
        + (entry (addResults ∅ es) A).Attempted.val
      = countEvents (hasLabelRecognised A) es
    ∧ countEvents (hasLabelRecognised A) es ≤ countEvents (hasLabel A) es := by
  obtain ⟨hT, hS, hU, hA⟩ := entry_addResults A es
  have hle := countEvents_recognised_le A es
  have hsum := countEvents_recognised A es
  rw [hT, hS, hU, hA, hsum]
  unfold wrapInt
  omega

/-- C1, at the scenario of the specification: "login" with results successful, successful,
unsuccessful, attempted gives Attempted 1, Successful 2, Unsuccessful 1, Total 4. -/
theorem addResults_counts_witness :
    entry (addResults ∅ loginScenario) "login" = mkAction 1 2 1 4
      ∧ (entry (addResults ∅ loginScenario) "login").Total.val
        = countEvents (hasLabel "login") loginScenario :=
  ⟨by decide, (addResults_counts "login" loginScenario (by decide)).1⟩

/-- C8: in a table built from the empty table by fewer than `2^63` calls of `addResult`,
every label present has all four counters non-negative, `Total` at least 1, and
`Attempted + Successful + Unsuccessful` at most `Total`. -/
theorem addResults_invariant (es : List AuditEvent) (h : es.length < 9223372036854775808)
    (A : String) (a : Action) (hA : (addResults ∅ es).lookup A = some a) :
    0 ≤ a.Attempted.val ∧ 0 ≤ a.Successful.val ∧ 0 ≤ a.Unsuccessful.val ∧ 0 ≤ a.Total.val
    ∧ 1 ≤ a.Total.val
    ∧ a.Attempted.val + a.Successful.val + a.Unsuccessful.val ≤ a.Total.val := by
  have ha : entry (addResults ∅ es) A = a := by rw [entry_eq, hA]; rfl
  obtain ⟨hT, hS, hU, hAt⟩ := entry_addResults A es
  rw [ha] at hT hS hU hAt
  have hmem : 0 < countEvents (hasLabel A) es :=
    (mem_addResults A es).1 (Finmap.mem_iff.2 ⟨a, hA⟩)
  have hlen := countEvents_le_length (hasLabel A) es
  have hle := countEvents_recognised_le A es
  have hsum := countEvents_recognised A es
  rw [hT, hS, hU, hAt]
  unfold wrapInt
  omega

/-- C8, at the scenario of the specification. -/
theorem addResults_invariant_witness :
    1 ≤ (mkAction 1 2 1 4).Total.val
      ∧ (mkAction 1 2 1 4).Attempted.val + (mkAction 1 2 1 4).Successful.val
          + (mkAction 1 2 1 4).Unsuccessful.val ≤ (mkAction 1 2 1 4).Total.val :=
  ⟨(addResults_invariant loginScenario (by decide) "login" (mkAction 1 2 1 4)
      (by decide)).2.2.2.2.1,
   (addResults_invariant loginScenario (by decide) "login" (mkAction 1 2 1 4)
      (by decide)).2.2.2.2.2⟩

/-! ## The loop (C3, C4, C7) -/

theorem step?_running (u : Unmarshal) (p : Process) (r : Ready) (hp : p.exited = none) :
    step? u p r = some (iteration u p r) := by
  unfold step?
  rw [hp]

theorem step?_exited (u : Unmarshal) (p : Process) (r : Ready) (s : Int)
    (hp : p.exited = some s) : step? u p r = none := by
  unfold step?
  rw [hp]

theorem run_exited (u : Unmarshal) (p : Process) (rs : List Ready) (s : Int)
    (hp : p.exited = some s) : run u p rs = p := by
  cases rs with
  | nil => rfl
  | cons r rs => simp [run, step?_exited u p r s hp]

theorem run_cons (u : Unmarshal) (p : Process) (r : Ready) (rs : List Ready)
    (hp : p.exited = none) : run u p (r :: rs) = run u (iteration u p r) rs := by
  simp [run, step?_running u p r hp]

theorem iteration_error (u : Unmarshal) (p : Process) (m : Message) (err : String)
    (h : readMessage u m.GetData = .error err) :
    iteration u p (.incoming m)
      = { p with log := p.log ++ [LogLine.failedToUnmarshal err] } := by
  simp [iteration, h]

theorem iteration_ok (u : Unmarshal) (p : Process) (m : Message) (e : AuditEvent)
    (h : readMessage u m.GetData = .ok e) :
    iteration u p (.incoming m)
      = { actions := addResult p.actions e, committed := p.committed ++ [m],
          log := p.log ++ [LogLine.receivedMessage e], exited := p.exited } := by
  simp [iteration, h]

theorem iteration_signal (u : Unmarshal) (p : Process) :
    iteration u p .signal
      = { p with log := p.log ++ [LogLine.auditStats p.actions], exited := some 0 } := rfl

/-- The effect of one message on a running process, in terms of the observations. -/
theorem iteration_incoming (u : Unmarshal) (p : Process) (m : Message) :
    iteration u p (.incoming m)
      = { actions := addResults p.actions (decoded u [m]),
          committed := p.committed ++ [m].filter (decodes u),
          log := p.log ++ messageLog u [m], exited := p.exited } := by
  cases h : readMessage u m.GetData with
  | error err =>
    rw [iteration_error u p m err h]
    simp [decoded, decodes, messageLog, addResults, h]
  | ok e =>
    rw [iteration_ok u p m e h]
    simp [decoded, decodes, messageLog, addResults, h]

/-- The loop over messages only: it stays in Running, and the table, the acknowledged
messages and the log are the ones of the messages that decoded. -/
theorem run_messages (u : Unmarshal) (ms : List Message) (p : Process)
    (hp : p.exited = none) :
    run u p (ms.map Ready.incoming)
      = { actions := addResults p.actions (decoded u ms),
          committed := p.committed ++ ms.filter (decodes u),
          log := p.log ++ messageLog u ms, exited := none } := by
  induction ms generalizing p with
  | nil =>
    cases p
    simp_all [run, decoded, messageLog, addResults]
  | cons m ms ih =>
    have hq := ih (iteration u p (.incoming m)) (by rw [iteration_incoming]; exact hp)
    rw [List.map_cons, run_cons u p _ _ hp, hq, iteration_incoming]
    have hd : decoded u (m :: ms) = decoded u [m] ++ decoded u ms := by
      unfold decoded
      rw [← List.filterMap_append]
      rfl
    have hf : (m :: ms).filter (decodes u) = [m].filter (decodes u) ++ ms.filter (decodes u) := by
      rw [← List.filter_append]
      rfl
    have hl : messageLog u (m :: ms) = messageLog u [m] ++ messageLog u ms := by
      unfold messageLog
      rw [← List.map_append]
      rfl
    simp only [hd, hf, hl, addResults, List.foldl_append, List.append_assoc]

/-- A schedule is the received messages followed by nothing or by a signal. -/
theorem schedule_cases (rs : List Ready) :
    rs = (received rs).map Ready.incoming
      ∨ ∃ rest, rs = (received rs).map Ready.incoming ++ Ready.signal :: rest := by
  induction rs with
  | nil => exact Or.inl rfl
  | cons r rs ih =>
    cases r with
    | signal => exact Or.inr ⟨rs, rfl⟩
    | incoming m =>
      rcases ih with h | ⟨rest, h⟩
      · left
        simp only [received, List.map_cons]
        rw [← h]
      · right
        refine ⟨rest, ?_⟩
        simp only [received, List.map_cons, List.cons_append]
        rw [← h]

theorem received_map_incoming (ms : List Message) :
    received (ms.map Ready.incoming) = ms := by
  induction ms with
  | nil => rfl
  | cons m ms ih => simp [received, ih]

/-- The loop up to and including the first signal. -/
theorem run_signal (u : Unmarshal) (ms : List Message) (rest : List Ready) (p : Process)
    (hp : p.exited = none) :
    run u p (ms.map Ready.incoming ++ Ready.signal :: rest)
      = { actions := addResults p.actions (decoded u ms),
          committed := p.committed ++ ms.filter (decodes u),
          log := p.log ++ messageLog u ms
            ++ [LogLine.auditStats (addResults p.actions (decoded u ms))],
          exited := some 0 } := by
  induction ms generalizing p with
  | nil =>
    rw [List.map_nil, List.nil_append, run_cons u p _ _ hp, iteration_signal,
      run_exited u _ rest 0 rfl]
    simp [decoded, messageLog, addResults]
  | cons m ms ih =>
    have hq := ih (iteration u p (.incoming m)) (by rw [iteration_incoming]; exact hp)
    rw [List.map_cons, List.cons_append, run_cons u p _ _ hp, hq, iteration_incoming]
    have hd : decoded u (m :: ms) = decoded u [m] ++ decoded u ms := by
      unfold decoded
      rw [← List.filterMap_append]
      rfl
    have hf : (m :: ms).filter (decodes u) = [m].filter (decodes u) ++ ms.filter (decodes u) := by
      rw [← List.filter_append]
      rfl
    have hl : messageLog u (m :: ms) = messageLog u [m] ++ messageLog u ms := by
      unfold messageLog
      rw [← List.map_append]
      rfl
    simp only [hd, hf, hl, addResults, List.foldl_append, List.append_assoc]

/-- The table and the acknowledged messages after any schedule. -/
theorem run_observed (u : Unmarshal) (rs : List Ready) (p : Process) (hp : p.exited = none) :
    (run u p rs).actions = addResults p.actions (decoded u (received rs))
      ∧ (run u p rs).committed = p.committed ++ (received rs).filter (decodes u) := by
  rcases schedule_cases rs with h | ⟨rest, h⟩
  · rw [h, run_messages u _ p hp, received_map_incoming]
    exact ⟨rfl, rfl⟩
  · have hr : received (List.map Ready.incoming (received rs) ++ Ready.signal :: rest)
        = received rs := by
      rw [← h]
    rw [h, run_signal u _ rest p hp, hr]
    exact ⟨rfl, rfl⟩

/-- C3: a message on which `readMessage` returns an error leaves the table of a running
process unchanged and the process running; so after any sequence of messages the table is
`addResult` folded over the events of the messages that decoded, in arrival order. -/
theorem decode_error_leaves_table (u : Unmarshal) (p : Process) (m : Message) (err : String)
    (hp : p.exited = none) (h : readMessage u m.GetData = .error err) :
    step? u p (.incoming m) = some (iteration u p (.incoming m))
    ∧ (iteration u p (.incoming m)).actions = p.actions
    ∧ (iteration u p (.incoming m)).exited = none
    ∧ (∀ ms : List Message,
        (run u (Process.init []) (ms.map Ready.incoming)).actions
            = addResults ∅ (decoded u ms)
          ∧ (run u (Process.init []) (ms.map Ready.incoming)).exited = none) := by
  refine ⟨step?_running u p _ hp, ?_, ?_, fun ms => ?_⟩
  · rw [iteration_error u p m err h]
  · rw [iteration_error u p m err h]
    exact hp
  · rw [run_messages u ms (Process.init []) rfl]
    exact ⟨rfl, rfl⟩

/-- C3, at the scenario of the specification: a payload that does not decode between two
"login" events with result "successful" gives Successful 2 and Total 2 for "login". -/
theorem decode_error_leaves_table_witness :
    (iteration sampleUnmarshal (Process.init []) (.incoming { offset := 1, data := [] })).actions
        = (Process.init []).actions
      ∧ entry (run sampleUnmarshal (Process.init [])
          (sampleMessages.map Ready.incoming)).actions "login" = mkAction 0 2 0 2 :=
  ⟨(decode_error_leaves_table sampleUnmarshal (Process.init []) { offset := 1, data := [] }
      "unexpected end of input" rfl rfl).2.1, by decide⟩

/-- C4: the messages acknowledged by the loop are the received messages on which
`readMessage` succeeded, each once per delivery and in arrival order; a message on which it
failed is not acknowledged; and the step that acknowledges a message is the step that
stores its `addResult` in the table. -/
theorem committed_iff_decoded (u : Unmarshal) (rs : List Ready) :
    (run u (Process.init []) rs).committed = (received rs).filter (decodes u)
    ∧ (∀ m : Message, m ∈ (run u (Process.init []) rs).committed
        ↔ m ∈ received rs ∧ decodes u m = true)
    ∧ (∀ m : Message, decodes u m = false → m ∉ (run u (Process.init []) rs).committed)
    ∧ ((run u (Process.init []) rs).committed).Sublist (received rs)
    ∧ ((received rs).Nodup → ((run u (Process.init []) rs).committed).Nodup)
    ∧ (∀ (p : Process) (m : Message), p.exited = none →
        (∀ e : AuditEvent, readMessage u m.GetData = .ok e →
          step? u p (.incoming m)
            = some { actions := addResult p.actions e, committed := p.committed ++ [m],
                     log := p.log ++ [LogLine.receivedMessage e], exited := none })
        ∧ (∀ err : String, readMessage u m.GetData = .error err →
          step? u p (.incoming m)
            = some { actions := p.actions, committed := p.committed,
                     log := p.log ++ [LogLine.failedToUnmarshal err], exited := none })) := by
  have hc : (run u (Process.init []) rs).committed = (received rs).filter (decodes u) := by
    rw [(run_observed u rs (Process.init []) rfl).2]
    rfl
  refine ⟨hc, fun m => ?_, fun m hm => ?_, ?_, fun hn => ?_, fun p m hp => ⟨fun e he => ?_,
    fun err herr => ?_⟩⟩
  · rw [hc, List.mem_filter]
  · rw [hc, List.mem_filter, hm]
    simp
  · rw [hc]
    exact List.filter_sublist _
  · rw [hc]
    exact hn.filter _
  · rw [step?_running u p _ hp, iteration_ok u p m e he, hp]
  · rw [step?_running u p _ hp, iteration_error u p m err herr]
    cases p
    simp_all

/-- C4, at a concrete input: of three deliveries the second does not decode; the first and
the third are acknowledged, once each. -/
theorem committed_iff_decoded_witness :
    (run sampleUnmarshal (Process.init []) (sampleMessages.map Ready.incoming)).committed
        = [{ offset := 0, data := [1] }, { offset := 2, data := [1] }]
      ∧ ((run sampleUnmarshal (Process.init [])
          (sampleMessages.map Ready.incoming)).committed).Nodup :=
  ⟨by decide,
   (committed_iff_decoded sampleUnmarshal (sampleMessages.map Ready.incoming)).2.2.2.2.1
     (by decide)⟩

/-- C7: a signal taken by a running process writes the current table to the log and exits
with status 0; a process that has exited takes no step; and for messages followed by a
signal the table written is the table after those messages, all of them handled to the
end, whatever follows the signal. -/
theorem signal_reports_table (u : Unmarshal) :
    (∀ p : Process, p.exited = none →
      step? u p .signal
        = some { actions := p.actions, committed := p.committed,
                 log := p.log ++ [LogLine.auditStats p.actions], exited := some 0 })
    ∧ (∀ (p : Process) (s : Int) (r : Ready), p.exited = some s → step? u p r = none)
    ∧ (∀ (p : Process) (s : Int) (rs : List Ready), p.exited = some s → run u p rs = p)
    ∧ (∀ (ms : List Message) (rest : List Ready),
        run u (Process.init []) (ms.map Ready.incoming ++ Ready.signal :: rest)
          = { actions := (run u (Process.init []) (ms.map Ready.incoming)).actions,
              committed := (run u (Process.init []) (ms.map Ready.incoming)).committed,
              log := (run u (Process.init []) (ms.map Ready.incoming)).log
                ++ [LogLine.auditStats
                      (run u (Process.init []) (ms.map Ready.incoming)).actions],
              exited := some 0 })
    ∧ (∀ ms : List Message,
        (run u (Process.init []) (ms.map Ready.incoming)).actions
          = addResults ∅ (decoded u ms)) := by
  refine ⟨fun p hp => ?_, fun p s r hp => step?_exited u p r s hp,
    fun p s rs hp => run_exited u p rs s hp, fun ms rest => ?_, fun ms => ?_⟩
  · rw [step?_running u p _ hp, iteration_signal]
  · rw [run_signal u ms rest (Process.init []) rfl, run_messages u ms (Process.init []) rfl]
  · rw [run_messages u ms (Process.init []) rfl]
    rfl

/-- C7, at the scenario of the specification: the signal arrives with Total 4 for "login"
and Total 1 for "logout"; the process exits with status 0 with both entries in the table
written, and the message after the signal is not counted. -/
theorem signal_reports_table_witness :
    step? sampleUnmarshal (Process.init []) .signal
        = some { actions := ∅, committed := [],
                 log := [] ++ [LogLine.auditStats ∅], exited := some 0 }
      ∧ (run sampleUnmarshal (Process.init []) shutdownSchedule).exited = some 0
      ∧ (run sampleUnmarshal (Process.init []) shutdownSchedule).actions.lookup "login"
          = some (mkAction 0 4 0 4)
      ∧ (run sampleUnmarshal (Process.init []) shutdownSchedule).actions.lookup "logout"
          = some (mkAction 1 0 0 1) :=
  ⟨(signal_reports_table sampleUnmarshal).1 (Process.init []) rfl, by decide, by decide,
   by decide⟩

/-! ## Start-up (C9) -/

theorem splitChars_ne_nil (sep : Char) (cs : List Char) : splitChars sep cs ≠ [] := by
  cases cs with
  | nil => simp [splitChars]
  | cons c cs =>
    unfold splitChars
    split_ifs
    · simp
    · split <;> simp

/-- Putting the separator back between the pieces gives the string that was split. -/
theorem splitChars_glue (sep : Char) (cs : List Char) :
    ∃ piece pieces, splitChars sep cs = piece :: pieces ∧ cs = piece ++ glue sep pieces := by
  induction cs with
  | nil => exact ⟨[], [], rfl, rfl⟩
  | cons c cs ih =>
    obtain ⟨piece, pieces, hs, hg⟩ := ih
    by_cases hc : c = sep
    · refine ⟨[], piece :: pieces, ?_, ?_⟩
      · simp [splitChars, hc, hs]
      · simp only [glue, List.nil_append, List.cons_append, hc]
        rw [← hg]
    · refine ⟨c :: piece, pieces, ?_, ?_⟩
      · simp [splitChars, hc, hs]
      · rw [List.cons_append, ← hg]

theorem splitChars_no_sep (sep : Char) (cs piece : List Char)
    (h : piece ∈ splitChars sep cs) : sep ∉ piece := by
  induction cs generalizing piece with
  | nil =>
    simp only [splitChars, List.mem_singleton] at h
    simp [h]
  | cons c cs ih =>
    obtain ⟨q, qs, hs, -⟩ := splitChars_glue sep cs
    by_cases hc : c = sep
    · simp only [splitChars, hc, if_true, List.mem_cons] at h
      rcases h with h | h
      · simp [h]
      · exact ih piece h
    · simp only [splitChars, hc, if_false, hs, List.mem_cons] at h
      rcases h with h | h
      · have hq := ih q (by rw [hs]; exact List.mem_cons_self _ _)
        rw [h, List.mem_cons, not_or]
        exact ⟨fun e => hc e.symm, hq⟩
      · exact ih piece (by rw [hs]; exact List.mem_cons_of_mem _ h)

theorem splitChars_length (sep : Char) (cs : List Char) :
    (splitChars sep cs).length = cs.count sep + 1 := by
  induction cs with
  | nil => rfl
  | cons c cs ih =>
    obtain ⟨q, qs, hs, -⟩ := splitChars_glue sep cs
    by_cases hc : c = sep
    · simp [splitChars, hc, ih]
    · rw [hs] at ih
      have hne : ¬ (c == sep) = true := by simpa using hc
      simp [splitChars, hc, hs, List.count_cons, hne]
      simpa using ih

theorem intercalate_go_data (sep : Char) (pieces : List (List Char)) (acc : String) :
    (String.intercalate.go acc (String.mk [sep]) (pieces.map String.mk)).data
      = acc.data ++ glue sep pieces := by
  induction pieces generalizing acc with
  | nil => simp [String.intercalate.go, glue]
  | cons piece pieces ih =>
    simp only [List.map_cons, String.intercalate.go, ih, glue, String.data_append]
    simp

theorem intercalate_stringsSplit (s : String) (sep : Char) :
    String.intercalate (String.mk [sep]) (stringsSplit s sep) = s := by
  obtain ⟨piece, pieces, hs, hg⟩ := splitChars_glue sep s.data
  apply String.ext
  unfold stringsSplit
  rw [hs, List.map_cons, String.intercalate, intercalate_go_data, ← hg]

/-- C9: with the empty string as broker addresses `main` logs the configuration error and
returns: no consumer is requested, the loop is not entered and `os.Exit` is not called.
With any other string exactly one consumer is requested, for the topic "audit-events" and
the group "check-audit" from the oldest offset, with the broker list `strings.Split` makes
of the string: a non-empty list of comma-free pieces that, joined by commas, are the
string. -/
theorem main_brokers (newSyncConsumer : NewSyncConsumer) (u : Unmarshal)
    (schedule : List Ready) :
    main "" newSyncConsumer u schedule
        = { log := [LogLine.missingBrokers ""], consumerRequests := [], loop := none,
            exitStatus := none }
    ∧ (∀ kafkaBrokers : String, kafkaBrokers ≠ "" →
        (main kafkaBrokers newSyncConsumer u schedule).consumerRequests
            = [{ brokers := stringsSplit kafkaBrokers ',', topic := "audit-events",
                 group := "check-audit", offsetOldest := true }]
          ∧ stringsSplit kafkaBrokers ',' ≠ []
          ∧ String.intercalate "," (stringsSplit kafkaBrokers ',') = kafkaBrokers
          ∧ (∀ piece ∈ stringsSplit kafkaBrokers ',', ',' ∉ piece.data)
          ∧ (stringsSplit kafkaBrokers ',').length = kafkaBrokers.data.count ',' + 1) := by
  refine ⟨by simp [main], fun kafkaBrokers hk => ⟨?_, ?_, ?_, ?_, ?_⟩⟩
  · unfold main
    rw [if_neg hk]
    dsimp only
    split <;> rfl
  · unfold stringsSplit
    simpa using splitChars_ne_nil ',' kafkaBrokers.data
  · exact intercalate_stringsSplit kafkaBrokers ','
  · intro piece hp
    unfold stringsSplit at hp
    rw [List.mem_map] at hp
    obtain ⟨cs, hcs, rfl⟩ := hp
    exact splitChars_no_sep ',' kafkaBrokers.data cs hcs
  · unfold stringsSplit
    rw [List.length_map, splitChars_length]

/-- C9, at concrete inputs: two broker addresses, a consumer that cannot be obtained. -/
theorem main_brokers_witness :
    (main "localhost:9092,localhost:9093" (fun _ => .error "no brokers") sampleUnmarshal
        []).consumerRequests
      = [{ brokers := stringsSplit "localhost:9092,localhost:9093" ',',
           topic := "audit-events", group := "check-audit", offsetOldest := true }]
    ∧ stringsSplit "localhost:9092,localhost:9093" ',' = ["localhost:9092", "localhost:9093"] :=
  ⟨((main_brokers (fun _ => .error "no brokers") sampleUnmarshal []).2
      "localhost:9092,localhost:9093" (by decide)).1, by decide⟩

end CheckAudit
